import Mathlib

/-!
Shallow embedding of the `etcdcron` package (Scalingo/go-etcd-cron):
`cron.go` (data model, `byTime` ordering, scheduler loop `Cron.run`, the
firing worker, `DeleteJob`, `ListJobsByPrefix`, `canonicalName`) and the
lock-key contract of `etcd.go`.

Modelling conventions:
* `Time` is `Nat`, the number of Unix seconds; `0` plays the role of Go's
  zero `time.Time` (`IsZero`), `Before` is `<` and `Unix()` is the identity.
* A `Schedule` is its `Next` oracle, a pure function on times, as in the
  `Schedule` interface of `cron.go`.
* A job body `func(context.Context) error` is modelled by the outcome its
  invocation produces: it returns `nil`, returns an error, or panics.
* Effectful collaborators of the firing worker (the etcd mutex builder and
  `Lock`) are modelled by an environment record carrying the outcome each
  call would produce; the worker itself is the direct translation of the
  goroutine body spawned in `Cron.run`.
-/

namespace EtcdCron

/-- The `Schedule` interface of `cron.go`: the next-activation oracle. -/
structure Schedule where
  Next : Nat → Nat

/-- Outcome of one invocation of a job body `func(context.Context) error`:
`nil`, a non-nil error, or a panic carrying the formatted panic value. -/
inductive JobResult where
  | ok : JobResult
  | failed (e : String) : JobResult
  | panicked (v : String) : JobResult
deriving DecidableEq

/-- The `Job` record of `cron.go`; `Func` is modelled by the outcome it produces when
invoked by the firing worker. -/
structure Job where
  Name : String
  Rhythm : String
  Func : JobResult

/-- The `Entry` record of `cron.go`. -/
structure Entry where
  Schedule : Schedule
  Next : Nat
  Prev : Nat
  Job : Job

/-- Translation of `byTime.Less` of `cron.go` (lines 94-105): two zero times compare
`false`; a zero time is otherwise greater than any time; else `Before`. -/
def byTimeLess (a b : Entry) : Bool :=
  if a.Next = 0 then false
  else if b.Next = 0 then true
  else a.Next < b.Next

/-- The non-strict order underlying `byTime`: `goLE a b` iff `sort.Sort`
may place `a` before `b`, i.e. `¬ Less b a`. -/
def goLE (a b : Entry) : Bool := ! byTimeLess b a

/-- Propositional form of `goLE`, the order `sort.Sort` establishes. -/
def goLEP (a b : Entry) : Prop := goLE a b = true

instance : DecidableRel goLEP := fun a b => instDecidableEqBool (goLE a b) true

/-- Model of `sort.Sort(byTime(c.entries))` of `Cron.run` (line 259): a
correct comparison sort over the `byTime` order (Go's `sort.Sort` only
promises a sorted permutation, which is what the proofs use). -/
def sortEntries (entries : List Entry) : List Entry :=
  entries.insertionSort goLEP

/-- ASCII capital letter, as tested by strcase. -/
def isCapGo (c : Char) : Bool := 'A' ≤ c && c ≤ 'Z'

/-- ASCII lowercase letter, as tested by strcase. -/
def isLowGo (c : Char) : Bool := 'a' ≤ c && c ≤ 'z'

/-- ASCII digit, as tested by strcase. -/
def isNumGo (c : Char) : Bool := '0' ≤ c && c ≤ '9'

/-- Modelled from the spec: the "normalized to snake case" step of the
canonical name is the third-party `strcase.ToSnake`
(github.com/iancoleman/strcase), whose source is not part of this
repository.  `ToSnake s = ToScreamingDelimited s '_' 0 false`; this is that
function's per-byte loop, specialised to `ignore = 0`, `screaming = false`,
carrying the previous original character for the acronym look-behind. -/
def tsdGo (delim : Char) : Option Char → List Char → List Char
  | _, [] => []
  | prev, c :: rest =>
    let vIsCap := isCapGo c
    let vIsLow := isLowGo c
    let v := if vIsCap then c.toLower else c
    let vIsNum := isNumGo v
    match rest with
    | next :: _ =>
      let nextIsCap := isCapGo next
      let nextIsLow := isLowGo next
      if vIsCap && nextIsLow then
        let prevIsCap := match prev with
          | some p => isCapGo p
          | none => false
        (if prevIsCap then [delim, v] else [v]) ++ tsdGo delim (some c) rest
      else if (vIsLow && nextIsCap) || (vIsNum && (nextIsCap || nextIsLow)) then
        v :: delim :: tsdGo delim (some c) rest
      else if v = ' ' || v = '_' || v = '-' then
        delim :: tsdGo delim (some c) rest
      else
        v :: tsdGo delim (some c) rest
    | [] =>
      if v = ' ' || v = '_' || v = '-' then [delim] else [v]

/-- Go `strings.TrimSpace`, on character lists. -/
def trimSpaceGo (l : List Char) : List Char :=
  ((l.dropWhile Char.isWhitespace).reverse.dropWhile Char.isWhitespace).reverse

/-- Modelled from the spec: third-party `strcase.ToSnake`, the snake-case
normalization named by the spec's canonical-name description. -/
def toSnakeGo (l : List Char) : List Char :=
  tsdGo '_' none (trimSpaceGo l)

/-- One character of `nonAlphaNumerical.ReplaceAllString(s, "_")` for the
anchored single-character class `[^a-z0-9_]` (`cron.go` line 52). -/
def replaceNonAlphaNum (c : Char) : Char :=
  if isLowGo c || isNumGo c || c = '_' then c else '_'

/-- Translation of `Job.canonicalName` of `cron.go` (lines 55-62):
`strcase.ToSnake(nonAlphaNumerical.ReplaceAllString(strings.ToLower(name), "_"))`.
`strings.ToLower` is modelled on its ASCII fragment (`Char.toLower`). -/
def canonicalName (j : Job) : String :=
  ⟨toSnakeGo ((j.Name.data.map Char.toLower).map replaceNonAlphaNum)⟩

/-- The coordinator lock key built by the firing worker (`cron.go` line
297): `fmt.Sprintf("etcd_cron/%s/%d", e.Job.canonicalName(), effective.Unix())`. -/
def lockKeyStr (j : Job) (effective : Nat) : String :=
  "etcd_cron/" ++ canonicalName j ++ "/" ++ toString effective

/-- Outcome of `m.Lock(lockCtx)` in the firing worker: acquired within the
deadline, `context.DeadlineExceeded`, or some other non-nil error. -/
inductive LockResult where
  | acquired : LockResult
  | deadlineExceeded : LockResult
  | failed (e : String) : LockResult
deriving DecidableEq

/-- Calls the worker performs on the distributed mutex. -/
inductive MutexOp where
  | lock : MutexOp
  | unlock : MutexOp
deriving DecidableEq

/-- Outcomes the firing worker's effectful collaborators would produce:
`build` is the error of `c.etcdclient.NewMutex` (`none` on success), `lock`
the outcome of `m.Lock`, and `stack` the `debug.Stack()` text captured if
the panic trap fires. -/
structure WorkerEnv where
  build : Option String
  lock : LockResult
  stack : String

/-- Observable behaviour of one firing-worker run. -/
structure WorkerResult where
  /-- Lock keys formatted by the worker (the `fmt.Sprintf` at line 297). -/
  keysBuilt : List String
  /-- Whether `e.Job.Run(ctx)` was invoked. -/
  jobInvoked : Bool
  /-- Arguments of spawned `c.etcdErrorsHandler` calls. -/
  etcdErrors : List String
  /-- Arguments of spawned `c.errorsHandler` calls. -/
  userErrors : List String
  /-- Mutex calls performed, in order. -/
  mutexOps : List MutexOp
  /-- Whether a panic escaped the worker goroutine (past the deferred
  `recover`). -/
  panicPropagated : Bool

/-- Message of `errors.Wrapf(err, "fail to create etcd mutex for job '%v'", e.Job.Name)`. -/
def wrapBuildErr (j : Job) (e : String) : String :=
  "fail to create etcd mutex for job '" ++ j.Name ++ "': " ++ e

/-- Message of `errors.Wrapf(err, "fail to lock mutex '%v'", m.Key())`. -/
def wrapLockErr (key : String) (e : String) : String :=
  "fail to lock mutex '" ++ key ++ "': " ++ e

/-- Message of `fmt.Errorf("panic: %v, stacktrace: %s", err, string(debug.Stack()))`. -/
def panicErrMsg (v stack : String) : String :=
  "panic: " ++ v ++ ", stacktrace: " ++ stack

/-- The firing worker: the goroutine body spawned at `cron.go` lines
280-318, for the captured job and `effective` instant.  The deferred
`recover` converts a panic from the job body into a single spawned
user-errors-handler call and stops it from escaping the goroutine. -/
def fireWorker (j : Job) (effective : Nat) (env : WorkerEnv) : WorkerResult :=
  let key := lockKeyStr j effective
  match env.build with
  | some e =>
    { keysBuilt := [key], jobInvoked := false,
      etcdErrors := [wrapBuildErr j e], userErrors := [],
      mutexOps := [], panicPropagated := false }
  | none =>
    match env.lock with
    | .deadlineExceeded =>
      { keysBuilt := [key], jobInvoked := false,
        etcdErrors := [], userErrors := [],
        mutexOps := [.lock], panicPropagated := false }
    | .failed e =>
      { keysBuilt := [key], jobInvoked := false,
        etcdErrors := [wrapLockErr key e], userErrors := [],
        mutexOps := [.lock], panicPropagated := false }
    | .acquired =>
      match j.Func with
      | .ok =>
        { keysBuilt := [key], jobInvoked := true,
          etcdErrors := [], userErrors := [],
          mutexOps := [.lock], panicPropagated := false }
      | .failed e =>
        { keysBuilt := [key], jobInvoked := true,
          etcdErrors := [], userErrors := [e],
          mutexOps := [.lock], panicPropagated := false }
      | .panicked v =>
        { keysBuilt := [key], jobInvoked := true,
          etcdErrors := [], userErrors := [panicErrMsg v env.stack],
          mutexOps := [.lock], panicPropagated := false }

/-- The in-place update a due entry receives in the timer branch
(`cron.go` lines 277-278): `e.Prev = e.Next; e.Next = e.Schedule.Next(effective)`. -/
def fireUpdate (effective : Nat) (e : Entry) : Entry :=
  { e with Prev := e.Next, Next := e.Schedule.Next effective }

/-- A firing dispatched by the loop: the captured job and the captured
`effective` instant of the spawned worker. -/
abbrev Firing := Job × Nat

/-- The timer branch of `Cron.run` (`cron.go` lines 272-319): walk the
entry list from the head, break at the first entry whose `Next` differs
from `effective`; update each visited entry and spawn a firing worker
bound to the captured `(e, effective)`. -/
def fireDue (entries : List Entry) (effective : Nat) : List Entry × List Firing :=
  match entries with
  | [] => ([], [])
  | e :: rest =>
    if e.Next ≠ effective then (e :: rest, [])
    else
      let out := fireDue rest effective
      (fireUpdate effective e :: out.1, (e.Job, effective) :: out.2)

/-- The accumulating loop of `Cron.DeleteJob` (`cron.go` lines 189-198):
returns the `found` flag and `updatedEntries`. -/
def deleteJobGo (entries : List Entry) (jobName : String) : Bool × List Entry :=
  match entries with
  | [] => (false, [])
  | e :: rest =>
    let out := deleteJobGo rest jobName
    if e.Job.Name = jobName then (true, out.2)
    else (out.1, e :: out.2)

/-- Translation of `Cron.DeleteJob` (`cron.go` lines 188-204): `.ok` carries the new entry
list assigned to `c.entries`; `.error` carries the "job not found" message
and leaves the list untouched. -/
def deleteJob (entries : List Entry) (jobName : String) : Except String (List Entry) :=
  let out := deleteJobGo entries jobName
  if out.1 then .ok out.2 else .error ("job not found: " ++ jobName)

/-- Go `strings.HasPrefix(s, pre)`, on the character lists of the strings. -/
def hasPrefixGo (s pre : String) : Bool :=
  pre.data.isPrefixOf s.data

/-- Translation of `Cron.ListJobsByPrefix` (`cron.go` lines 221-230): the jobs of the
entries whose name starts with the given string, in entry-list order. -/
def listJobsByPre (entries : List Entry) (pre : String) : List Job :=
  (entries.filter (fun e => hasPrefixGo e.Job.Name pre)).map (fun e => e.Job)

/-- Translation of `Cron.entrySnapshot` (`cron.go` lines 345-356): a copy of the entry
list, one fresh record per entry. -/
def entrySnapshot (entries : List Entry) : List Entry :=
  entries.map (fun e => { Schedule := e.Schedule, Next := e.Next, Prev := e.Prev, Job := e.Job })

/-- Model of `now.AddDate(10, 0, 0)` of `cron.go` line 265, modelled as adding ten
365-day years of seconds; the only facts used are that it is positive and
added to `now`. -/
def tenYears : Nat := 315360000

/-- Events the `select` of `Cron.run` can wake on.  The add event carries
the schedule and job of the `Entry` built by `Cron.Schedule` (lines
207-218), which has zero `Next` and `Prev` when it reaches the loop. -/
inductive LoopEvent where
  | timer : LoopEvent
  | add (sched : Schedule) (job : Job) : LoopEvent
  | snapshotReq : LoopEvent
  | stopReq : LoopEvent

/-- Result of one iteration of the `for` loop of `Cron.run`. -/
structure LoopResult where
  entries : List Entry
  now : Nat
  firings : List Firing
  snapshotOut : Option (List Entry)
  stopped : Bool

/-- One iteration of the loop of `Cron.run` (`cron.go` lines 257-335):
sort; choose `effective` (far future when there is no scheduled head);
then serve the woken `select` case.  `fresh` is the `time.Now()` read at
line 334, reached only by the add and snapshot branches. -/
def loopIter (entries : List Entry) (now fresh : Nat) (ev : LoopEvent) : LoopResult :=
  let sorted := sortEntries entries
  let effective :=
    match sorted with
    | [] => now + tenYears
    | e :: _ => if e.Next = 0 then now + tenYears else e.Next
  match ev with
  | .timer =>
    let out := fireDue sorted effective
    { entries := out.1, now := effective, firings := out.2,
      snapshotOut := none, stopped := false }
  | .add sched job =>
    let newEntry : Entry := { Schedule := sched, Next := sched.Next now, Prev := 0, Job := job }
    { entries := sorted ++ [newEntry], now := fresh, firings := [],
      snapshotOut := none, stopped := false }
  | .snapshotReq =>
    { entries := sorted, now := fresh, firings := [],
      snapshotOut := some (entrySnapshot sorted), stopped := false }
  | .stopReq =>
    { entries := sorted, now := now, firings := [],
      snapshotOut := none, stopped := true }

/-- The documented contract of the `Schedule` oracle (`cron.go` lines
64-69 and the spec): the next activation is strictly later than the given
time, or zero when the schedule never fires again. -/
def ScheduleContract (s : Schedule) : Prop :=
  ∀ t : Nat, s.Next t = 0 ∨ t < s.Next t

/-- Invariant 3 of the spec: `Prev < Next` for an entry that has ever
fired (`Prev ≠ 0`) and is still scheduled (`Next ≠ 0`). -/
def PrevNextInv (e : Entry) : Prop :=
  e.Prev ≠ 0 → e.Next ≠ 0 → e.Prev < e.Next

/-- Strict "earlier" on times in the order that sorts the zero time last:
the left time is scheduled and the right one is either unscheduled or
strictly later on the wall clock. -/
def zeroLastLT (x y : Nat) : Prop := x ≠ 0 ∧ (y = 0 ∨ x < y)

/-- Non-strict companion of `zeroLastLT`. -/
def zeroLastLE (x y : Nat) : Prop := y = 0 ∨ (x ≠ 0 ∧ x ≤ y)

lemma byTimeLess_eq_true_iff (a b : Entry) :
    byTimeLess a b = true ↔ zeroLastLT a.Next b.Next := by
  unfold byTimeLess zeroLastLT
  by_cases ha : a.Next = 0 <;> by_cases hb : b.Next = 0 <;> simp [ha, hb]

lemma goLE_eq_true_iff (a b : Entry) :
    goLE a b = true ↔ zeroLastLE a.Next b.Next := by
  unfold goLE byTimeLess zeroLastLE
  by_cases ha : a.Next = 0 <;> by_cases hb : b.Next = 0 <;> simp [ha, hb]

lemma goLE_refl (a : Entry) : goLE a a = true := by
  rw [goLE_eq_true_iff]
  unfold zeroLastLE
  generalize a.Next = x
  omega

lemma goLE_trans (a b c : Entry) (h1 : goLE a b = true) (h2 : goLE b c = true) :
    goLE a c = true := by
  rw [goLE_eq_true_iff] at h1 h2 ⊢
  unfold zeroLastLE at h1 h2 ⊢
  revert h1 h2
  generalize a.Next = x
  generalize b.Next = y
  generalize c.Next = z
  omega

lemma goLE_total (a b : Entry) : (goLE a b || goLE b a) = true := by
  rw [Bool.or_eq_true, goLE_eq_true_iff, goLE_eq_true_iff]
  unfold zeroLastLE
  generalize a.Next = x
  generalize b.Next = y
  omega

instance : IsTrans Entry goLEP := ⟨fun a b c => goLE_trans a b c⟩

instance : IsTotal Entry goLEP := by
  constructor
  intro a b
  have h := goLE_total a b
  rw [Bool.or_eq_true] at h
  exact h

lemma sortEntries_sorted (l : List Entry) :
    (sortEntries l).Pairwise (fun a b => goLE a b = true) :=
  List.sorted_insertionSort goLEP l

lemma sortEntries_subset (l : List Entry) : sortEntries l ⊆ l :=
  (List.perm_insertionSort goLEP l).subset

lemma fireDue_fst (entries : List Entry) (eff : Nat) :
    (fireDue entries eff).1
      = (entries.takeWhile (fun e => e.Next == eff)).map (fireUpdate eff)
        ++ entries.dropWhile (fun e => e.Next == eff) := by
  induction entries with
  | nil => rfl
  | cons e rest ih =>
    by_cases h : e.Next = eff
    · simp [fireDue, h, List.takeWhile_cons, List.dropWhile_cons, ih]
    · simp [fireDue, h, List.takeWhile_cons, List.dropWhile_cons]

lemma fireDue_snd (entries : List Entry) (eff : Nat) :
    (fireDue entries eff).2
      = (entries.takeWhile (fun e => e.Next == eff)).map (fun e => (e.Job, eff)) := by
  induction entries with
  | nil => rfl
  | cons e rest ih =>
    by_cases h : e.Next = eff
    · simp [fireDue, h, List.takeWhile_cons, ih]
    · simp [fireDue, h, List.takeWhile_cons]

lemma takeWhile_eq_filter_of_head (eff : Nat) (a : Entry) (ha : a.Next = eff) :
    ∀ l : List Entry, List.Pairwise (fun x y => goLE x y = true) l →
      (∀ z ∈ l, goLE a z = true) →
      l.takeWhile (fun e => e.Next == eff) = l.filter (fun e => e.Next == eff) := by
  intro l
  induction l with
  | nil => intro _ _; rfl
  | cons z t ih =>
    intro hpw hall
    rcases List.pairwise_cons.mp hpw with ⟨hz, ht⟩
    by_cases hpz : z.Next = eff
    · rw [List.takeWhile_cons_of_pos (by simp [hpz]), List.filter_cons_of_pos (by simp [hpz])]
      rw [ih ht (fun w hw => hall w (List.mem_cons_of_mem _ hw))]
    · have haz := hall z (List.mem_cons_self _ _)
      have hnone : ∀ w ∈ t, ¬ ((fun e => e.Next == eff) w = true) := by
        intro w hw
        have hzw := hz w hw
        rw [goLE_eq_true_iff] at haz hzw
        unfold zeroLastLE at haz hzw
        rw [ha] at haz
        simp only [beq_iff_eq]
        revert haz hzw hpz
        generalize z.Next = zn
        generalize w.Next = wn
        omega
      rw [List.takeWhile_cons_of_neg (by simp [hpz]), List.filter_cons_of_neg (by simp [hpz])]
      exact (List.filter_eq_nil_iff.mpr hnone).symm

lemma deleteJobGo_eq (entries : List Entry) (n : String) :
    deleteJobGo entries n
      = (entries.any (fun e => e.Job.Name == n),
         entries.filter (fun e => ! (e.Job.Name == n))) := by
  induction entries with
  | nil => rfl
  | cons e rest ih =>
    by_cases h : e.Job.Name = n <;>
      simp [deleteJobGo, h, ih, List.any_cons, List.filter_cons]

lemma fireWorker_keysBuilt (j : Job) (t : Nat) (env : WorkerEnv) :
    (fireWorker j t env).keysBuilt = [lockKeyStr j t] := by
  obtain ⟨b, lk, st⟩ := env
  obtain ⟨nm, rh, f⟩ := j
  cases b <;> cases lk <;> cases f <;> rfl

lemma canonicalName_congr {j j' : Job} (h : j.Name = j'.Name) :
    canonicalName j = canonicalName j' := by
  unfold canonicalName
  rw [h]

lemma hasPrefixGo_empty (s : String) : hasPrefixGo s "" = true := by
  simp [hasPrefixGo, List.isPrefixOf]

lemma fireDue_inv (l : List Entry) (eff : Nat)
    (hc : ∀ e ∈ l, ScheduleContract e.Schedule)
    (hinv : ∀ e ∈ l, PrevNextInv e) :
    ∀ e ∈ (fireDue l eff).1, PrevNextInv e := by
  intro e he
  rw [fireDue_fst] at he
  rcases List.mem_append.mp he with h | h
  · obtain ⟨x, hx, rfl⟩ := List.mem_map.mp h
    have hx' : x ∈ l := (List.takeWhile_sublist _).subset hx
    intro hp hn
    simp only [fireUpdate] at hp hn ⊢
    rcases hc x hx' eff with h0 | hlt
    · exact absurd h0 hn
    · have hpx := List.mem_takeWhile_imp hx
      simp only [beq_iff_eq] at hpx
      rw [hpx]
      exact hlt
  · exact hinv e ((List.dropWhile_sublist _).subset h)

/-- C1: every firing-worker run formats exactly one coordinator lock key,
of the form `etcd_cron/<canonicalName(job)>/<unixSeconds(effective)>`; the
key is a function of the job's name and the firing instant alone, so two
cohort members computing it for the same (job name, instant) pair obtain
byte-identical strings, whatever their local mutex/lock outcomes are. -/
theorem c1_lock_key_form_deterministic
    (j : Job) (t : Nat) (env : WorkerEnv) (j' : Job) (env' : WorkerEnv) :
    (fireWorker j t env).keysBuilt
        = ["etcd_cron/" ++ canonicalName j ++ "/" ++ toString t]
    ∧ (j'.Name = j.Name →
        (fireWorker j' t env').keysBuilt = (fireWorker j t env).keysBuilt) := by
  refine ⟨fireWorker_keysBuilt j t env, fun h => ?_⟩
  rw [fireWorker_keysBuilt, fireWorker_keysBuilt]
  unfold lockKeyStr
  rw [canonicalName_congr h]

/-- Closed instance of the C1 theorem: the lock key of the job named
"Foo Bar-1" at instant 1700000000, and its equality across two cohort
members whose jobs share the name but differ elsewhere. -/
theorem c1_lock_key_witness :
    (fireWorker ⟨"Foo Bar-1", "* * * * * ?", .ok⟩ 1700000000 ⟨none, .acquired, ""⟩).keysBuilt
        = ["etcd_cron/" ++ canonicalName ⟨"Foo Bar-1", "* * * * * ?", .ok⟩ ++ "/"
            ++ toString (1700000000 : Nat)]
    ∧ (fireWorker ⟨"Foo Bar-1", "0 * * * * ?", .failed "boom"⟩ 1700000000
          ⟨some "connection refused", .deadlineExceeded, "stack"⟩).keysBuilt
        = (fireWorker ⟨"Foo Bar-1", "* * * * * ?", .ok⟩ 1700000000 ⟨none, .acquired, ""⟩).keysBuilt := by
  have h := c1_lock_key_form_deterministic ⟨"Foo Bar-1", "* * * * * ?", .ok⟩ 1700000000
    ⟨none, .acquired, ""⟩ ⟨"Foo Bar-1", "0 * * * * ?", .failed "boom"⟩
    ⟨some "connection refused", .deadlineExceeded, "stack"⟩
  exact ⟨h.1, h.2 rfl⟩

/-- C2: the timer branch walks the entry list from the head and stops at
the first entry whose `Next` differs from `effective`; every visited entry
gets `Prev ← Next`, `Next ← Schedule.Next effective` and one firing bound
to that same `effective`; and on a `byTime`-sorted list whose head is due,
the visited prefix is exactly the set of entries tied at the earliest
`Next`, so all of them fire in this iteration at the same instant. -/
theorem c2_timer_branch_fires_ties (entries : List Entry) (eff : Nat) :
    (fireDue entries eff).1
        = (entries.takeWhile (fun e => e.Next == eff)).map (fireUpdate eff)
          ++ entries.dropWhile (fun e => e.Next == eff)
    ∧ (fireDue entries eff).2
        = (entries.takeWhile (fun e => e.Next == eff)).map (fun e => (e.Job, eff))
    ∧ (∀ f ∈ (fireDue entries eff).2, f.2 = eff)
    ∧ (List.Pairwise (fun a b => goLE a b = true) entries →
        (∀ e, entries.head? = some e → e.Next = eff) →
        entries.takeWhile (fun e => e.Next == eff)
          = entries.filter (fun e => e.Next == eff)) := by
  refine ⟨fireDue_fst entries eff, fireDue_snd entries eff, ?_, ?_⟩
  · intro f hf
    rw [fireDue_snd] at hf
    obtain ⟨e, -, he⟩ := List.mem_map.mp hf
    rw [← he]
  · intro hpw hhd
    cases entries with
    | nil => rfl
    | cons a t =>
      refine takeWhile_eq_filter_of_head eff a (hhd a rfl) (a :: t) hpw ?_
      intro z hz
      rcases List.mem_cons.mp hz with h | h
      · rw [h]; exact goLE_refl a
      · exact (List.pairwise_cons.mp hpw).1 z h

/-- Schedule fixture used by witnesses: fires two seconds later. -/
def schedW : Schedule := ⟨fun t => t + 2⟩

/-- Job fixtures used by witnesses. -/
def jobW1 : Job := ⟨"w1", "* * * * * ?", .ok⟩

def jobW2 : Job := ⟨"w2", "* * * * * ?", .ok⟩

def jobW3 : Job := ⟨"w3", "* * * * * ?", .ok⟩

/-- Entry-list fixture: two entries tied at `Next = 10`, one later. -/
def entsW2 : List Entry := [⟨schedW, 10, 0, jobW1⟩, ⟨schedW, 10, 5, jobW2⟩, ⟨schedW, 12, 0, jobW3⟩]

/-- Closed instance of the C2 theorem on `entsW2` at `effective = 10`:
both tied entries fire at 10 and the due prefix is the whole tied set. -/
theorem c2_timer_branch_witness :
    (fireDue entsW2 10).2 = [(jobW1, 10), (jobW2, 10)]
    ∧ entsW2.takeWhile (fun e => e.Next == 10) = entsW2.filter (fun e => e.Next == 10) := by
  have h := c2_timer_branch_fires_ties entsW2 10
  refine ⟨?_, h.2.2.2 ?_ ?_⟩
  · rw [h.2.1]; rfl
  · decide
  · intro e he
    rw [show entsW2.head? = some ⟨schedW, 10, 0, jobW1⟩ from rfl] at he
    rw [← Option.some.inj he]

/-- Entry fixtures with a duplicated job name, for the C3 counterexample. -/
def schedZ : Schedule := ⟨fun t => t⟩

def dupEnt1 : Entry := ⟨schedZ, 1, 0, ⟨"dup", "@every 1s", .ok⟩⟩

def dupEnt2 : Entry := ⟨schedZ, 2, 0, ⟨"dup", "@every 2s", .ok⟩⟩

/-- C3 counterexample: with two entries both named "dup", `DeleteJob "dup"`
does not remove only the first match — it removes both, so the result is
not the list holding the later duplicate. -/
theorem c3_delete_first_only_counterexample :
    deleteJob [dupEnt1, dupEnt2] "dup" = Except.ok []
    ∧ deleteJob [dupEnt1, dupEnt2] "dup" ≠ Except.ok [dupEnt2] := by
  have hv : deleteJob [dupEnt1, dupEnt2] "dup" = Except.ok [] := rfl
  refine ⟨hv, ?_⟩
  rw [hv]
  intro h
  exact List.noConfusion (Except.ok.inj h)

/-- C3 (amended): `DeleteJob` removes every entry whose `Job.Name` equals
the given name; it returns an error exactly when no entry has that name,
and in that case the entry list is left unchanged. -/
theorem c3_delete_all_matches (entries : List Entry) (n : String) :
    deleteJob entries n
      = if entries.any (fun e => e.Job.Name == n)
        then Except.ok (entries.filter (fun e => ! (e.Job.Name == n)))
        else Except.error ("job not found: " ++ n) := by
  simp only [deleteJob, deleteJobGo_eq]

/-- C4: `byTime.Less` is false on two zero `Next` values and true exactly
when the left `Next` is non-zero and strictly earlier in the order that
counts the zero time as later than everything; sorting with it therefore
arranges entries by `Next` ascending with zero `Next` last. -/
theorem c4_byTime_less_ordering :
    (∀ a b : Entry, a.Next = 0 → b.Next = 0 → byTimeLess a b = false)
    ∧ (∀ a b : Entry, byTimeLess a b = true ↔ zeroLastLT a.Next b.Next)
    ∧ (∀ l : List Entry,
        (sortEntries l).Pairwise (fun a b => zeroLastLE a.Next b.Next)) := by
  refine ⟨?_, byTimeLess_eq_true_iff, ?_⟩
  · intro a b ha _
    simp [byTimeLess, ha]
  · intro l
    exact (sortEntries_sorted l).imp (fun h => (goLE_eq_true_iff _ _).mp h)

/-- Entry fixtures with zero `Next`, for the C4 witness. -/
def entZ1 : Entry := ⟨schedZ, 0, 0, ⟨"z1", "", .ok⟩⟩

def entZ2 : Entry := ⟨schedZ, 0, 7, ⟨"z2", "", .ok⟩⟩

/-- Closed instance of the C4 theorem: `Less` is false on two entries with
zero `Next`. -/
theorem c4_byTime_less_witness : byTimeLess entZ1 entZ2 = false :=
  c4_byTime_less_ordering.1 entZ1 entZ2 rfl rfl

/-- C5: `canonicalName` depends only on the job's `Name`, and maps each of
"Foo Bar-1", "foo_bar_1" and "FOO BAR 1" to the string "foo_bar_1". -/
theorem c5_canonicalName_values :
    (∀ j j' : Job, j.Name = j'.Name → canonicalName j = canonicalName j')
    ∧ canonicalName ⟨"Foo Bar-1", "", .ok⟩ = "foo_bar_1"
    ∧ canonicalName ⟨"foo_bar_1", "", .ok⟩ = "foo_bar_1"
    ∧ canonicalName ⟨"FOO BAR 1", "", .ok⟩ = "foo_bar_1" :=
  ⟨fun _ _ h => canonicalName_congr h, by decide, by decide, by decide⟩

/-- Closed instance of the C5 theorem: the canonical name of "Foo Bar-1"
does not depend on the job's other fields. -/
theorem c5_canonicalName_witness :
    canonicalName ⟨"Foo Bar-1", "* * * * * ?", .ok⟩
      = canonicalName ⟨"Foo Bar-1", "@every 5s", .failed "x"⟩ :=
  c5_canonicalName_values.1 _ _ rfl

/-- C6: the lock outcome decides the dispatch — `DeadlineExceeded` is
swallowed with no handler and no job body; a mutex-build error or any
other lock error goes to the etcd-errors handler and the body is skipped;
the body runs exactly when the lock is acquired, and a non-nil error it
returns goes to the user errors handler. -/
theorem c6_worker_dispatch (j : Job) (t : Nat) (env : WorkerEnv) :
    (env.build = none → env.lock = .deadlineExceeded →
        (fireWorker j t env).jobInvoked = false
        ∧ (fireWorker j t env).etcdErrors = []
        ∧ (fireWorker j t env).userErrors = [])
    ∧ (∀ e, env.build = some e →
        (fireWorker j t env).jobInvoked = false
        ∧ (fireWorker j t env).etcdErrors = [wrapBuildErr j e]
        ∧ (fireWorker j t env).userErrors = [])
    ∧ (∀ e, env.build = none → env.lock = .failed e →
        (fireWorker j t env).jobInvoked = false
        ∧ (fireWorker j t env).etcdErrors = [wrapLockErr (lockKeyStr j t) e]
        ∧ (fireWorker j t env).userErrors = [])
    ∧ ((fireWorker j t env).jobInvoked = true ↔ env.build = none ∧ env.lock = .acquired)
    ∧ (∀ e, env.build = none → env.lock = .acquired → j.Func = .failed e →
        (fireWorker j t env).userErrors = [e]) := by
  obtain ⟨b, lk, st⟩ := env
  obtain ⟨nm, rh, f⟩ := j
  cases b <;> cases lk <;> cases f <;>
    simp [fireWorker, wrapBuildErr, wrapLockErr, lockKeyStr]

/-- Closed instance of the C6 theorem: under an acquired lock a job body
returning the error "boom" yields exactly that user-errors-handler call. -/
theorem c6_worker_dispatch_witness :
    (fireWorker ⟨"j6", "* * * * * ?", .failed "boom"⟩ 5 ⟨none, .acquired, ""⟩).userErrors
      = ["boom"] :=
  (c6_worker_dispatch ⟨"j6", "* * * * * ?", .failed "boom"⟩ 5
    ⟨none, .acquired, ""⟩).2.2.2.2 "boom" rfl rfl rfl

/-- C7: when the job body panics, the deferred `recover` turns the panic
into exactly one user-errors-handler call whose message embeds the panic
value and the captured stack trace, and no panic ever escapes the worker
(whatever the environment), so the spawning loop is unaffected. -/
theorem c7_panic_recovered (j : Job) (t : Nat) (env : WorkerEnv) (v : String)
    (hf : j.Func = .panicked v) (hb : env.build = none) (hl : env.lock = .acquired) :
    (fireWorker j t env).userErrors = [panicErrMsg v env.stack]
    ∧ (∃ a b, panicErrMsg v env.stack = a ++ v ++ b)
    ∧ (∃ a b, panicErrMsg v env.stack = a ++ env.stack ++ b)
    ∧ (∀ env' : WorkerEnv, (fireWorker j t env').panicPropagated = false) := by
  obtain ⟨b, lk, st⟩ := env
  simp only at hb hl
  subst hb hl
  refine ⟨?_, ⟨"panic: ", ", stacktrace: " ++ st, ?_⟩,
    ⟨"panic: " ++ v ++ ", stacktrace: ", "", ?_⟩, ?_⟩
  · simp [fireWorker, hf]
  · simp [panicErrMsg, String.append_assoc]
  · simp [panicErrMsg, String.append_empty, String.append_assoc]
  · intro env'
    obtain ⟨b', lk', st'⟩ := env'
    obtain ⟨nm, rh, f⟩ := j
    cases b' <;> cases lk' <;> cases f <;> rfl

/-- Closed instance of the C7 theorem: a body panicking with "boom" yields
the single recovered user-error carrying the panic text and the stack. -/
theorem c7_panic_recovered_witness :
    (fireWorker ⟨"jp", "* * * * * ?", .panicked "boom"⟩ 9
        ⟨none, .acquired, "goroutine 1 [running]"⟩).userErrors
      = [panicErrMsg "boom" "goroutine 1 [running]"] :=
  (c7_panic_recovered ⟨"jp", "* * * * * ?", .panicked "boom"⟩ 9
    ⟨none, .acquired, "goroutine 1 [running]"⟩ "boom" rfl rfl rfl).1

/-- C8: on every path — build failure, lock timeout, lock error, job
success, job error, job panic — the worker's mutex-call trace is the empty
trace or a single `Lock`; it never contains `Unlock`. -/
theorem c8_never_unlock (j : Job) (t : Nat) (env : WorkerEnv) :
    ((fireWorker j t env).mutexOps = [] ∨ (fireWorker j t env).mutexOps = [MutexOp.lock])
    ∧ MutexOp.unlock ∉ (fireWorker j t env).mutexOps := by
  obtain ⟨b, lk, st⟩ := env
  obtain ⟨nm, rh, f⟩ := j
  cases b <;> cases lk <;> cases f <;> simp [fireWorker]

/-- Closed instance of the C8 theorem on the lock-contention path. -/
theorem c8_never_unlock_witness :
    MutexOp.unlock ∉ (fireWorker ⟨"j8", "* * * * * ?", .ok⟩ 3
      ⟨none, .deadlineExceeded, ""⟩).mutexOps :=
  (c8_never_unlock ⟨"j8", "* * * * * ?", .ok⟩ 3 ⟨none, .deadlineExceeded, ""⟩).2

/-- C9: provided every registered schedule obeys the oracle contract, one
loop iteration — timer, add, snapshot or stop — maps an entry list whose
members satisfy `Prev < Next` (when both are non-zero) to an entry list
whose members still do; the timer branch establishes it via `Prev ← Next`,
`Next ← Schedule.Next effective`. -/
theorem c9_prev_lt_next_preserved (entries : List Entry) (now fresh : Nat) (ev : LoopEvent)
    (hc : ∀ e ∈ entries, ScheduleContract e.Schedule)
    (hinv : ∀ e ∈ entries, PrevNextInv e) :
    ∀ e ∈ (loopIter entries now fresh ev).entries, PrevNextInv e := by
  have hcs : ∀ e ∈ sortEntries entries, ScheduleContract e.Schedule :=
    fun e he => hc e (sortEntries_subset entries he)
  have his : ∀ e ∈ sortEntries entries, PrevNextInv e :=
    fun e he => hinv e (sortEntries_subset entries he)
  cases ev with
  | timer =>
    intro e he
    exact fireDue_inv (sortEntries entries) _ hcs his e he
  | add sched job =>
    intro e he
    simp only [loopIter] at he
    rcases List.mem_append.mp he with h | h
    · exact his e h
    · rw [List.mem_singleton] at h
      rw [h]
      intro hp _
      exact absurd rfl hp
  | snapshotReq =>
    intro e he
    exact his e he
  | stopReq =>
    intro e he
    exact his e he

/-- Fixtures for the C9 witness: an entry due at 100 under a schedule that
fires every 60 seconds. -/
def schedW9 : Schedule := ⟨fun t => t + 60⟩

def jobW9 : Job := ⟨"w9", "0 * * * * ?", .ok⟩

def entW9 : Entry := ⟨schedW9, 100, 0, jobW9⟩

def entW9f : Entry := ⟨schedW9, 160, 100, jobW9⟩

/-- Closed instance of the C9 theorem: after the timer iteration at 100
the fired entry has `Prev = 100 < 160 = Next`. -/
theorem c9_prev_lt_next_witness :
    (loopIter [entW9] 100 0 LoopEvent.timer).entries = [entW9f]
    ∧ entW9f.Prev < entW9f.Next := by
  refine ⟨rfl, ?_⟩
  have h := c9_prev_lt_next_preserved [entW9] 100 0 LoopEvent.timer
    (by
      intro e he
      rw [List.mem_singleton] at he
      rw [he]
      intro t
      right
      show t < t + 60
      omega)
    (by
      intro e he
      rw [List.mem_singleton] at he
      rw [he]
      intro hp _
      exact absurd rfl hp)
  have hm : entW9f ∈ (loopIter [entW9] 100 0 LoopEvent.timer).entries := by
    rw [show (loopIter [entW9] 100 0 LoopEvent.timer).entries = [entW9f] from rfl]
    exact List.mem_singleton_self _
  exact h entW9f hm (by decide) (by decide)

/-- C10: with the empty string the listing returns one job per entry in
entry-list order, and when no entry's name starts with the given string it
returns the empty list rather than an error. -/
theorem c10_list_by_name_start (entries : List Entry) (p : String) :
    listJobsByPre entries "" = entries.map (fun e => e.Job)
    ∧ ((∀ e ∈ entries, hasPrefixGo e.Job.Name p = false) →
        listJobsByPre entries p = []) := by
  constructor
  · unfold listJobsByPre
    have hall : List.filter (fun e => hasPrefixGo e.Job.Name "") entries = entries :=
      List.filter_eq_self.mpr (fun e _ => hasPrefixGo_empty _)
    rw [hall]
  · intro h
    unfold listJobsByPre
    have hnil : List.filter (fun e => hasPrefixGo e.Job.Name p) entries = [] :=
      List.filter_eq_nil_iff.mpr (fun e he => by simp [h e he])
    rw [hnil]
    rfl

/-- Entry-list fixture for the C10 witness. -/
def entsW10 : List Entry :=
  [⟨schedZ, 5, 0, ⟨"alpha", "* * * * * ?", .ok⟩⟩, ⟨schedZ, 6, 0, ⟨"beta", "* * * * * ?", .ok⟩⟩]

/-- Closed instance of the C10 theorem on `entsW10`: the empty string
returns both jobs in order, and the unmatched string "zzz" returns `[]`. -/
theorem c10_list_by_name_start_witness :
    listJobsByPre entsW10 "" = [⟨"alpha", "* * * * * ?", .ok⟩, ⟨"beta", "* * * * * ?", .ok⟩]
    ∧ listJobsByPre entsW10 "zzz" = [] := by
  refine ⟨?_, (c10_list_by_name_start entsW10 "zzz").2 (by decide)⟩
  rw [(c10_list_by_name_start entsW10 "zzz").1]
  rfl

end EtcdCron
